import Mathlib

/-!
Shallow embedding of `src/agent_field_guide/server.py` — the query engine
(`search_patterns`, `get_by_category`, `get_mistakes`, `list_categories`,
`stats`), the protocol dispatcher and the transport loop — together with
theorems settling the specification claims about them.

Strings are modelled with Lean's `String`; the Python string operations the
server uses (`lower`, `upper`, `strip`, whitespace `re.split`, substring
`in`) are embedded explicitly on the underlying character lists, so every
definition is executable.
-/

namespace AFG

/-- Python `str.lower()`, as the per-character mapping it is on the data involved. -/
def pyLower (s : String) : String := ⟨s.data.map Char.toLower⟩

/-- Python `str.upper()`. -/
def pyUpper (s : String) : String := ⟨s.data.map Char.toUpper⟩

/-- Python `str.strip()` on a character list: drop whitespace from both ends. -/
def trimChars (l : List Char) : List Char :=
  ((l.dropWhile Char.isWhitespace).reverse.dropWhile Char.isWhitespace).reverse

/-- Python `str.strip()`. -/
def pyStrip (s : String) : String := ⟨trimChars s.data⟩

/-- Python substring test `nee in hay`: the characters of `nee` occur
contiguously inside those of `hay`. -/
def strContains (hay nee : String) : Bool := decide (nee.data <:+: hay.data)

/-- Chunks of non-whitespace characters, with empty chunks where whitespace
runs meet each other or the ends of the string: the raw output of
`re.split` on a whitespace pattern. -/
def splitWsChunks (l : List Char) : List (List Char) :=
  l.foldr
    (fun c acc =>
      if c.isWhitespace then [] :: acc
      else
        match acc with
        | [] => [[c]]
        | w :: ws => (c :: w) :: ws)
    []

/-- `[t for t in re.split(whitespace, s) if t]`: the nonempty
whitespace-separated tokens of `s`. -/
def pyTokens (s : String) : List String :=
  ((splitWsChunks s.data).filter (fun w => w ≠ [])).map (fun w => ⟨w⟩)

/-- Insert step of a stable descending insertion sort on a `Nat` key: `x`
goes before the first element whose key is at most `k x`, so among equal
keys earlier elements stay first. -/
def insertByDesc (k : α → Nat) (x : α) : List α → List α
  | [] => [x]
  | y :: ys => if k x < k y then y :: insertByDesc k x ys else x :: y :: ys

/-- Stable sort by a `Nat` key, descending.  Python's
`list.sort(key=lambda e: -key(e))` is a stable sort on the same order, and
stable sorts of the same list by the same order coincide, so this embeds
`server.py`'s sorting exactly. -/
def sortByDesc (k : α → Nat) : List α → List α
  | [] => []
  | x :: xs => insertByDesc k x (sortByDesc k xs)

/-- A pattern record: the fields of the dicts `server.py` consumes. -/
structure Pattern where
  type : String
  categories : List String
  tags : List String
  content : String
deriving DecidableEq

/-- server.py line 144: the lower-cased haystack of one record. -/
def haystack (p : Pattern) : String :=
  pyLower (p.content ++ " " ++ String.intercalate " " p.categories ++ " " ++
    String.intercalate " " p.tags)

/-- server.py line 138: the lower-cased whitespace-split query terms. -/
def queryTerms (query : String) : List String :=
  (pyTokens (pyStrip query)).map pyLower

/-- server.py lines 145-149: the score `search_patterns` ranks a record by.
The base is the number of entries of the term LIST (with its multiplicities)
that occur in the haystack; when the base is positive and the whole
lower-cased query occurs in the haystack, 3 is added; a record with base 0
scores 0 (and is dropped by `searchScored`). -/
def searchScore (query : String) (p : Pattern) : Nat :=
  let text := haystack p
  let base := ((queryTerms query).filter (fun t => strContains text t)).length
  if 0 < base then (if strContains text (pyLower query) then base + 3 else base) else 0

/-- `min(max(lo, l), hi)` on Python's unbounded integers. -/
def clampI (lo hi l : Int) : Int := min (max lo l) hi

/-- server.py lines 142-150: the scored list, in store order, keeping only
positively scored records.  (In the source the bonus is added inside the
`score > 0` branch; `searchScore` folds the two steps into one function,
which is the same since the bonus only applies to positive bases.) -/
def searchScored (store : List Pattern) (query : String) : List (Nat × Pattern) :=
  store.filterMap (fun p =>
    let s := searchScore query p
    if 0 < s then some (s, p) else none)

/-- server.py line 152: stable sort by descending score. -/
def searchRanked (store : List Pattern) (query : String) : List (Nat × Pattern) :=
  sortByDesc Prod.fst (searchScored store query)

/-- server.py lines 136-153. -/
def search_patterns (store : List Pattern) (query : String) (limit : Int) : List Pattern :=
  let lim := clampI 1 30 limit
  if queryTerms query = [] then []
  else ((searchRanked store query).take lim.toNat).map Prod.snd

/-- server.py lines 156-160. -/
def get_by_category (store : List Pattern) (category : String) (limit : Int) : List Pattern :=
  let lim := clampI 1 40 limit
  let cat := pyStrip (pyLower category)
  (store.filter (fun p => decide (cat ∈ p.categories))).take lim.toNat

/-- server.py lines 163-169.  `if category:` is Python string truthiness:
`None` and the empty string skip the filter; every other string, a
whitespace-only one included, applies it (with the trimmed lower-cased
category as the key). -/
def get_mistakes (store : List Pattern) (category : Option String) (limit : Int) :
    List Pattern :=
  let lim := clampI 1 25 limit
  let base := store.filter (fun p => decide (p.type = "mistake"))
  let sel :=
    match category with
    | some c =>
        if c = "" then base
        else base.filter (fun p => decide (pyStrip (pyLower c) ∈ p.categories))
    | none => base
  sel.take lim.toNat

/-- server.py line 176: `counts[c] = counts.get(c, 0) + 1` on Python's
insertion-ordered dict: bump an existing key in place, append a new key. -/
def bump (m : List (String × Nat)) (c : String) : List (String × Nat) :=
  match m with
  | [] => [(c, 1)]
  | (k, n) :: rest => if k = c then (k, n + 1) :: rest else (k, n) :: bump rest c

/-- server.py lines 173-176: the category-count mapping, keys in
first-encounter order. -/
def catCounts (store : List Pattern) : List (String × Nat) :=
  store.foldl (fun m p => p.categories.foldl bump m) []

/-- server.py line 177: the keys stably sorted by descending count, each
paired with its count.  (The source sorts the keys and re-reads each count
from the dict; sorting the key/count pairs by the count is the same list.) -/
def list_categories (store : List Pattern) : List (String × Nat) :=
  sortByDesc Prod.snd (catCounts store)

/-- server.py lines 180-191.  `by_category` carries the `list_categories`
mapping in its order. -/
structure Stats where
  total : Nat
  by_type : List (String × Nat)
  by_category : List (String × Nat)
  source : String
  version : String
deriving DecidableEq

def stats (store : List Pattern) : Stats :=
  { total := store.length
    by_type := store.foldl (fun m p => bump m p.type) []
    by_category := list_categories store
    source := "490 sessions of autonomous AI agent operation"
    version := "0.2.0" }

/-- Insert step of an ascending insertion sort on the string itself
(Python's `sorted` over distinct strings; code-point lexicographic order,
which is Lean's `<` on `String`). -/
def insertAscStr (x : String) : List String → List String
  | [] => [x]
  | y :: ys => if x < y then x :: y :: ys else y :: insertAscStr x ys

def sortAscStr : List String → List String
  | [] => []
  | x :: xs => insertAscStr x (sortAscStr xs)

/-- Insert step of an ascending insertion sort of key/count pairs by the
key (Python's `sorted` over dict items with distinct keys). -/
def insertAscByKey (x : String × Nat) : List (String × Nat) → List (String × Nat)
  | [] => [x]
  | y :: ys => if x.1 < y.1 then x :: y :: ys else y :: insertAscByKey x ys

def sortAscByKey : List (String × Nat) → List (String × Nat)
  | [] => []
  | x :: xs => insertAscByKey x (sortAscByKey xs)

/-- The distinct category labels in first-encounter order (how keys of a
Python dict or set built by a left-to-right scan are ordered). -/
def firstOccs (l : List String) : List String :=
  l.foldl (fun acc c => if c ∈ acc then acc else acc ++ [c]) []

/-- Lookup in an insertion-ordered count mapping, 0 for a missing key (the
`counts.get(c, 0)` read). -/
def lookup0 : List (String × Nat) → String → Nat
  | [], _ => 0
  | (k, v) :: rest, c => if k = c then v else lookup0 rest c

/-- server.py line 37: `CATEGORIES`, the sorted set of all category labels.
Deduplicating in any order and then sorting gives the one sorted
duplicate-free list, so first-encounter order for the set is faithful. -/
def categoriesSorted (store : List Pattern) : List String :=
  sortAscStr (firstOccs ((store.map (fun p => p.categories)).flatten))

/-- server.py lines 196-203. -/
def format_pattern (p : Pattern) (idx : Nat) : String :=
  let head := "[" ++ toString (idx + 1) ++ "] **" ++ pyUpper p.type ++ "** — " ++
    String.intercalate ", " p.categories
  let base := head ++ "\n\n" ++ p.content
  if p.tags = [] then base
  else base ++ "\n\n_Tags: " ++ String.intercalate ", " p.tags ++ "_"

/-- The blocks of `_format_patterns`, numbered from `i`. -/
def formatBlocks (ps : List Pattern) (i : Nat) : List String :=
  match ps with
  | [] => []
  | p :: rest => format_pattern p i :: formatBlocks rest (i + 1)

/-- server.py lines 206-209. -/
def format_patterns (ps : List Pattern) : String :=
  if ps = [] then "No patterns found."
  else String.intercalate "\n\n---\n\n" (formatBlocks ps 0)

/-- A JSON scalar as far as the dispatcher inspects request arguments.
`other` stands for arrays and objects (which Python's `int()` rejects with
a `TypeError`); JSON fractional numbers play no part in any claim and are
not modelled. -/
inductive JVal where
  | jnull
  | jbool (b : Bool)
  | jint (n : Int)
  | jstr (s : String)
  | other
deriving DecidableEq

/-- Python `int(s)` on a string: optional surrounding whitespace, an
optional sign, then at least one digit.  (Python's underscore digit
grouping is not modelled; no claim involves it.) -/
def parseIntStr (s : String) : Option Int :=
  let l := trimChars s.data
  let sign : Int := if l.head? = some '-' then -1 else 1
  let ds := if l.head? = some '-' ∨ l.head? = some '+' then l.tail else l
  if ds ≠ [] ∧ ds.all Char.isDigit then
    some (sign * (ds.foldl (fun acc c => acc * 10 + (c.toNat - '0'.toNat)) 0 : Nat))
  else none

/-- Python `int(v)` on a JSON-derived argument value, as `server.py` calls
it on `limit`: integers pass through, booleans coerce, digit strings parse,
everything else raises (the message stands in for CPython's text). -/
def pyIntOf : JVal → Except String Int
  | .jint n => .ok n
  | .jbool b => .ok (if b then 1 else 0)
  | .jstr s =>
      match parseIntStr s with
      | some n => .ok n
      | none => .error ("invalid literal for int() with base 10: '" ++ s ++ "'")
  | .jnull => .error "int() argument cannot be NoneType"
  | .other => .error "int() argument cannot be a container"

/-- The argument bag of a `tools/call` request, restricted to the keys the
dispatcher reads.  `query` and `category` are modelled as present-or-absent
strings; `limit` keeps its raw JSON shape because the dispatcher coerces it
with `int()`. -/
structure ToolArgs where
  query : Option String
  category : Option String
  limit : Option JVal
deriving DecidableEq

/-- The `params` object of a request: `params.get("name", "")` and
`params.get("arguments", {})`; an absent `params` behaves as the empty
name with empty arguments. -/
structure CallParams where
  name : String
  arguments : ToolArgs
deriving DecidableEq

/-- A decoded request object.  `id = none` models an absent `id` key (and a
JSON-null one, which `dict.get` does not distinguish from absence). -/
structure Request where
  method : String
  id : Option JVal
  params : CallParams
deriving DecidableEq

/-- A response payload: the two static blobs are opaque tags (their
contents are fixed data the claims never inspect), a `tools/call` result
carries its text. -/
inductive RVal where
  | initInfo
  | toolList
  | content (text : String)
deriving DecidableEq

/-- A line written by `_result` or `_error`; `id = none` is a JSON-null
`id` on the wire. -/
inductive OutMsg where
  | result (id : Option JVal) (r : RVal)
  | error (id : Option JVal) (code : Int) (msg : String)
deriving DecidableEq

def OutMsg.msgId : OutMsg → Option JVal
  | .result i _ => i
  | .error i _ _ => i

/-- server.py lines 241-243. -/
def searchText (query : String) (results : List Pattern) : String :=
  let text := format_patterns results
  if results = [] then text
  else "Found " ++ toString results.length ++ " pattern(s) for '" ++ query ++ "':\n\n" ++ text

/-- server.py lines 250-255. -/
def byCategoryText (store : List Pattern) (category : String) (results : List Pattern) :
    String :=
  if results = [] then
    "No patterns found for category '" ++ category ++ "'.\nAvailable categories: " ++
      String.intercalate ", " (categoriesSorted store)
  else
    "**" ++ category ++ "** — " ++ toString results.length ++ " pattern(s):\n\n" ++
      format_patterns results

/-- server.py lines 260-266. -/
def mistakesText (category : Option String) (results : List Pattern) : String :=
  if results = [] then format_patterns results
  else
    "**Documented mistakes**" ++
      (match category with | some c => " in " ++ c | none => "") ++
      " — " ++ toString results.length ++ " entry(s):\n\n" ++ format_patterns results

/-- server.py lines 269-273. -/
def listCategoriesText (store : List Pattern) : String :=
  String.intercalate "\n"
    ("**Available categories:**\n" ::
      (list_categories store).map
        (fun c => "- **" ++ c.1 ++ "** (" ++ toString c.2 ++ " patterns)"))

/-- server.py lines 276-291. -/
def statsText (store : List Pattern) : String :=
  let s := stats store
  String.intercalate "\n"
    (["**Agent Field Guide** — v" ++ s.version,
      "Source: " ++ s.source,
      "",
      "**Total patterns:** " ++ toString s.total,
      "",
      "**By type:**"] ++
     (sortAscByKey s.by_type).map (fun t => "  - " ++ t.1 ++ ": " ++ toString t.2) ++
     ["", "**By category:**"] ++
     (sortByDesc Prod.snd s.by_category).map (fun t => "  - " ++ t.1 ++ ": " ++ toString t.2))

/-- server.py lines 231-301: the `tools/call` arm.  Every path through the
source's `try` block emits exactly one message (`_result` or `_error`), so
the arm is a function to a single message.  The only exceptions the block
can raise are the two explicit `ValueError`s and `int()` failures, all
caught at line 299 and mapped to code -32603. -/
def toolsCall (store : List Pattern) (rid : Option JVal) (ps : CallParams) : OutMsg :=
  let args := ps.arguments
  if ps.name = "search_patterns" then
    let query := args.query.getD ""
    if query = "" then .error rid (-32603) "query is required"
    else
      match pyIntOf (args.limit.getD (.jint 10)) with
      | .error e => .error rid (-32603) e
      | .ok lim =>
          .result rid (.content (searchText query (search_patterns store query lim)))
  else if ps.name = "get_by_category" then
    let category := args.category.getD ""
    if category = "" then .error rid (-32603) "category is required"
    else
      match pyIntOf (args.limit.getD (.jint 15)) with
      | .error e => .error rid (-32603) e
      | .ok lim =>
          .result rid
            (.content (byCategoryText store category (get_by_category store category lim)))
  else if ps.name = "get_mistakes" then
    let category : Option String :=
      match args.category with
      | some c => if c = "" then none else some c
      | none => none
    match pyIntOf (args.limit.getD (.jint 10)) with
    | .error e => .error rid (-32603) e
    | .ok lim =>
        .result rid (.content (mistakesText category (get_mistakes store category lim)))
  else if ps.name = "list_categories" then
    .result rid (.content (listCategoriesText store))
  else if ps.name = "stats" then
    .result rid (.content (statsText store))
  else .error rid (-32601) ("Unknown tool: " ++ ps.name)

/-- server.py lines 214-307: the dispatcher.  The list is the sequence of
messages written (empty for a dropped notification). -/
def dispatch (store : List Pattern) (req : Request) : List OutMsg :=
  if req.method = "initialize" then [.result req.id .initInfo]
  else if req.method = "tools/list" then [.result req.id .toolList]
  else if req.method = "tools/call" then [toolsCall store req.id req.params]
  else if req.id = none then []
  else [.error req.id (-32601) ("Method not found: " ++ req.method)]

/-- All category labels of the store, record by record, in order (the
stream `list_categories` scans). -/
def allCats (store : List Pattern) : List String :=
  (store.map (fun p => p.categories)).flatten

/-- Claim C1's scoring, read literally from the spec sentence: the number
of DISTINCT query terms occurring in the haystack, plus a flat 3 whenever
the full lower-cased untokenized query occurs in the haystack. -/
def claimScoreC1 (query : String) (p : Pattern) : Nat :=
  let text := haystack p
  ((queryTerms query).dedup.filter (fun t => strContains text t)).length +
    (if strContains text (pyLower query) then 3 else 0)

/-- The search pipeline claim C1 describes, with its own scoring: drop
score-0 records, stable-sort descending, truncate.  (The spec's rule that a
query with no terms returns the empty sequence is kept.) -/
def claimSearchC1 (store : List Pattern) (query : String) (limit : Int) : List Pattern :=
  let lim := clampI 1 30 limit
  if queryTerms query = [] then []
  else
    ((sortByDesc Prod.fst
        (store.filterMap (fun p =>
          let s := claimScoreC1 query p
          if 0 < s then some (s, p) else none))).take lim.toNat).map Prod.snd

/-- Claim C1 amended: the same pipeline, with the terms counted with the
multiplicities they have in the whitespace-split token list. -/
def specScoreC1Amended (query : String) (p : Pattern) : Nat :=
  let text := haystack p
  ((queryTerms query).filter (fun t => strContains text t)).length +
    (if strContains text (pyLower query) then 3 else 0)

def specSearchC1Amended (store : List Pattern) (query : String) (limit : Int) :
    List Pattern :=
  let lim := clampI 1 30 limit
  if queryTerms query = [] then []
  else
    ((sortByDesc Prod.fst
        (store.filterMap (fun p =>
          let s := specScoreC1Amended query p
          if 0 < s then some (s, p) else none))).take lim.toNat).map Prod.snd

/-- What `json.loads` can hand to `dispatch`: a JSON object read as a
request mapping, or some other valid JSON value (number, string, array,
boolean, null), on which `req.get(...)` raises an uncaught
`AttributeError`. -/
inductive DecodedJson where
  | obj (req : Request)
  | nonObj
deriving DecidableEq

/-- server.py lines 312-322: the transport loop over a list of input lines,
parameterised by the JSON decoder (`none` = `json.loads` raises
`JSONDecodeError`).  Returns the messages written and whether the loop was
aborted by an uncaught exception (`dispatch` being handed a non-object);
lines after an abort are never read. -/
def runLoop (jloads : String → Option DecodedJson) (store : List Pattern) :
    List String → List OutMsg × Bool
  | [] => ([], false)
  | line :: rest =>
    let l := pyStrip line
    if l = "" then runLoop jloads store rest
    else
      match jloads l with
      | none =>
          let r := runLoop jloads store rest
          (OutMsg.error none (-32700) "Parse error" :: r.1, r.2)
      | some (.obj req) =>
          let r := runLoop jloads store rest
          (dispatch store req ++ r.1, r.2)
      | some .nonObj => ([], true)

/-! ### Properties of the stable descending sort -/

theorem insertByDesc_perm (k : α → Nat) (x : α) (l : List α) :
    List.Perm (insertByDesc k x l) (x :: l) := by
  induction l with
  | nil => rfl
  | cons y ys ih =>
    by_cases h : k x < k y
    · simp only [insertByDesc, if_pos h]
      exact (ih.cons y).trans (List.Perm.swap x y ys)
    · simp only [insertByDesc, if_neg h]
      exact List.Perm.refl _

theorem sortByDesc_perm (k : α → Nat) (l : List α) : List.Perm (sortByDesc k l) l := by
  induction l with
  | nil => rfl
  | cons x xs ih => exact (insertByDesc_perm k x _).trans (ih.cons x)

theorem insertByDesc_pairwise (k : α → Nat) (x : α) (l : List α)
    (h : l.Pairwise (fun a b => k b ≤ k a)) :
    (insertByDesc k x l).Pairwise (fun a b => k b ≤ k a) := by
  induction l with
  | nil => simp [insertByDesc]
  | cons y ys ih =>
    rw [List.pairwise_cons] at h
    by_cases hk : k x < k y
    · simp only [insertByDesc, if_pos hk]
      rw [List.pairwise_cons]
      refine ⟨fun b hb => ?_, ih h.2⟩
      rcases List.mem_cons.mp (((insertByDesc_perm k x ys).mem_iff).mp hb) with rfl | hb'
      · exact Nat.le_of_lt hk
      · exact h.1 b hb'
    · push_neg at hk
      simp only [insertByDesc, if_neg (Nat.not_lt.mpr hk)]
      rw [List.pairwise_cons]
      refine ⟨fun b hb => ?_, List.pairwise_cons.mpr h⟩
      rcases List.mem_cons.mp hb with rfl | hb'
      · exact hk
      · exact le_trans (h.1 b hb') hk

theorem sortByDesc_pairwise (k : α → Nat) (l : List α) :
    (sortByDesc k l).Pairwise (fun a b => k b ≤ k a) := by
  induction l with
  | nil => exact List.Pairwise.nil
  | cons x xs ih => exact insertByDesc_pairwise k x _ ih

theorem insertByDesc_filter (k : α → Nat) (x : α) (l : List α) (n : Nat) :
    (insertByDesc k x l).filter (fun a => k a == n) =
      (x :: l).filter (fun a => k a == n) := by
  induction l with
  | nil => simp [insertByDesc]
  | cons y ys ih =>
    by_cases hk : k x < k y
    · simp only [insertByDesc, if_pos hk]
      by_cases hy : k y = n
      · have hx : ¬(k x = n) := by omega
        simp [List.filter_cons, hy, hx] at ih ⊢
        exact ih
      · by_cases hx : k x = n
        · simp [List.filter_cons, hy, hx] at ih ⊢
          exact ih
        · simp [List.filter_cons, hy, hx] at ih ⊢
          exact ih
    · simp only [insertByDesc, if_neg hk]

theorem sortByDesc_filter (k : α → Nat) (l : List α) (n : Nat) :
    (sortByDesc k l).filter (fun a => k a == n) = l.filter (fun a => k a == n) := by
  induction l with
  | nil => rfl
  | cons x xs ih =>
    have h := insertByDesc_filter k x (sortByDesc k xs) n
    simp only [sortByDesc, h, List.filter_cons, ih]

/-! ### Tokens are substrings of the query -/

theorem splitWsChunks_head_prefix :
    ∀ (l : List Char) (w : List Char) (ws : List (List Char)),
      splitWsChunks l = w :: ws → w <+: l := by
  intro l
  induction l with
  | nil => intro w ws h; simp [splitWsChunks] at h
  | cons c cs ih =>
    intro w ws h
    have hstep : splitWsChunks (c :: cs) =
        (if c.isWhitespace then [] :: splitWsChunks cs
         else
           match splitWsChunks cs with
           | [] => [[c]]
           | w :: ws => (c :: w) :: ws) := rfl
    rw [hstep] at h
    by_cases hc : c.isWhitespace
    · rw [if_pos hc] at h
      cases h
      exact List.nil_prefix
    · rw [if_neg hc] at h
      cases hsc : splitWsChunks cs with
      | nil =>
        rw [hsc] at h
        cases h
        exact ⟨cs, rfl⟩
      | cons w0 ws0 =>
        rw [hsc] at h
        obtain ⟨h1, h2⟩ := List.cons_eq_cons.mp h
        subst h1
        obtain ⟨t, ht⟩ := ih w0 ws0 hsc
        exact ⟨t, by rw [List.cons_append, ht]⟩

theorem splitWsChunks_infix :
    ∀ (l : List Char) (w : List Char), w ∈ splitWsChunks l → w <:+: l := by
  intro l
  induction l with
  | nil => intro w h; simp [splitWsChunks] at h
  | cons c cs ih =>
    intro w h
    have hstep : splitWsChunks (c :: cs) =
        (if c.isWhitespace then [] :: splitWsChunks cs
         else
           match splitWsChunks cs with
           | [] => [[c]]
           | w :: ws => (c :: w) :: ws) := rfl
    rw [hstep] at h
    by_cases hc : c.isWhitespace
    · rw [if_pos hc] at h
      rcases List.mem_cons.mp h with rfl | h'
      · exact List.nil_infix
      · exact (ih w h').trans (List.infix_cons (List.infix_refl cs))
    · rw [if_neg hc] at h
      cases hsc : splitWsChunks cs with
      | nil =>
        rw [hsc] at h
        rcases List.mem_cons.mp h with rfl | h'
        · exact ⟨[], cs, rfl⟩
        · simp at h'
      | cons w0 ws0 =>
        rw [hsc] at h
        rcases List.mem_cons.mp h with rfl | h'
        · obtain ⟨t, ht⟩ := splitWsChunks_head_prefix cs w0 ws0 hsc
          exact ⟨[], t, by simp [ht]⟩
        · exact (ih w (hsc ▸ List.mem_cons_of_mem w0 h')).trans
            (List.infix_cons (List.infix_refl cs))

theorem trimChars_infix (l : List Char) : trimChars l <:+: l := by
  unfold trimChars
  set m := l.dropWhile Char.isWhitespace with hm
  have h1 : m <:+ l := List.dropWhile_suffix _
  have h2 : m.reverse.dropWhile Char.isWhitespace <:+ m.reverse :=
    List.dropWhile_suffix _
  obtain ⟨t, ht⟩ := h2
  have h3 : (m.reverse.dropWhile Char.isWhitespace).reverse <+: m := by
    refine ⟨t.reverse, ?_⟩
    have := congrArg List.reverse ht
    simpa [List.reverse_append] using this
  exact h3.isInfix.trans h1.isInfix

theorem term_infix_of_mem (q t : String) (ht : t ∈ queryTerms q) :
    t.data <:+: (pyLower q).data := by
  unfold queryTerms pyTokens at ht
  rcases List.mem_map.mp ht with ⟨t0, ht0, rfl⟩
  rcases List.mem_map.mp ht0 with ⟨w, hw, rfl⟩
  have hw' : w ∈ splitWsChunks (pyStrip q).data := (List.mem_filter.mp hw).1
  have h1 : w <:+: (pyStrip q).data := splitWsChunks_infix _ w hw'
  have h2 : (pyStrip q).data <:+: q.data := trimChars_infix q.data
  exact (h1.trans h2).map Char.toLower

theorem phrase_imp_term_match (q : String) (p : Pattern)
    (hterms : queryTerms q ≠ [])
    (hphrase : strContains (haystack p) (pyLower q) = true) :
    0 < ((queryTerms q).filter (fun t => strContains (haystack p) t)).length := by
  rcases hq : queryTerms q with _ | ⟨t, ts⟩
  · exact absurd hq hterms
  have ht : t ∈ queryTerms q := hq ▸ List.mem_cons_self t ts
  have h1 : t.data <:+: (pyLower q).data := term_infix_of_mem q t ht
  simp only [strContains, decide_eq_true_eq] at hphrase
  have h3 : strContains (haystack p) t = true := by
    simp only [strContains, decide_eq_true_eq]
    exact h1.trans hphrase
  have hmem : t ∈ (t :: ts).filter (fun t => strContains (haystack p) t) :=
    List.mem_filter.mpr ⟨List.mem_cons_self t ts, h3⟩
  exact List.length_pos.mpr (List.ne_nil_of_mem hmem)

theorem searchScore_eq_amended (q : String) (p : Pattern)
    (hterms : queryTerms q ≠ []) :
    (if 0 < searchScore q p then some (searchScore q p, p) else none) =
      (if 0 < specScoreC1Amended q p then some (specScoreC1Amended q p, p) else none) := by
  unfold searchScore specScoreC1Amended
  by_cases hb : 0 < ((queryTerms q).filter (fun t => strContains (haystack p) t)).length
  · by_cases hph : strContains (haystack p) (pyLower q) = true
    · simp [hb, hph]
    · simp only [Bool.not_eq_true] at hph
      simp [hb, hph]
  · have hb0 : ((queryTerms q).filter (fun t => strContains (haystack p) t)).length = 0 := by
      omega
    have hph : ¬(strContains (haystack p) (pyLower q) = true) := fun h =>
      absurd (phrase_imp_term_match q p hterms h) hb
    simp only [Bool.not_eq_true] at hph
    simp [hb0, hph]

theorem search_patterns_eq_amended (store : List Pattern) (q : String) (limit : Int) :
    search_patterns store q limit = specSearchC1Amended store q limit := by
  by_cases hterms : queryTerms q = []
  · simp [search_patterns, specSearchC1Amended, hterms]
  · have hmaps :
        store.filterMap (fun p =>
          let s := searchScore q p
          if 0 < s then some (s, p) else none) =
        store.filterMap (fun p =>
          let s := specScoreC1Amended q p
          if 0 < s then some (s, p) else none) :=
      List.filterMap_congr (fun p _ => searchScore_eq_amended q p hterms)
    simp only [search_patterns, specSearchC1Amended, searchRanked, searchScored,
      if_neg hterms]
    rw [hmaps]

/-! ### Properties of the insertion-ordered category-count mapping -/

theorem bump_keys (m : List (String × Nat)) (c : String) :
    (bump m c).map Prod.fst =
      if c ∈ m.map Prod.fst then m.map Prod.fst else m.map Prod.fst ++ [c] := by
  induction m with
  | nil => simp [bump]
  | cons kv rest ih =>
    obtain ⟨k, v⟩ := kv
    by_cases hk : k = c
    · subst hk
      simp [bump]
    · simp only [bump, if_neg hk, List.map_cons]
      rw [ih]
      by_cases hc : c ∈ rest.map Prod.fst
      · simp [hc, List.mem_cons, Ne.symm hk]
      · simp [hc, List.mem_cons, Ne.symm hk]

theorem lookup0_bump (m : List (String × Nat)) (c d : String) :
    lookup0 (bump m c) d = lookup0 m d + (if d = c then 1 else 0) := by
  induction m with
  | nil =>
    by_cases h : d = c
    · subst h; simp [bump, lookup0]
    · simp [bump, lookup0, h, Ne.symm h]
  | cons kv rest ih =>
    obtain ⟨k, v⟩ := kv
    by_cases hk : k = c
    · subst hk
      by_cases hd : k = d
      · subst hd; simp [bump, lookup0]
      · have hdk : ¬(d = k) := fun h => hd h.symm
        simp [bump, lookup0, hd, hdk]
    · by_cases hd : k = d
      · subst hd
        simp [bump, lookup0, hk]
      · simp [bump, lookup0, hk, hd, ih]

theorem bump_sum (m : List (String × Nat)) (c : String) :
    ((bump m c).map Prod.snd).sum = (m.map Prod.snd).sum + 1 := by
  induction m with
  | nil => simp [bump]
  | cons kv rest ih =>
    obtain ⟨k, v⟩ := kv
    by_cases hk : k = c
    · subst hk; simp [bump]; omega
    · simp [bump, hk, ih]; omega

theorem bump_nodup (m : List (String × Nat)) (c : String)
    (h : (m.map Prod.fst).Nodup) : ((bump m c).map Prod.fst).Nodup := by
  rw [bump_keys]
  by_cases hc : c ∈ m.map Prod.fst
  · simp [hc, h]
  · simp only [hc, if_false]
    rw [List.nodup_append]
    exact ⟨h, List.nodup_singleton c, by simp [List.disjoint_right, hc]⟩

theorem keys_foldl_bump (l : List String) :
    ∀ m, ((l.foldl bump m).map Prod.fst) =
      l.foldl (fun acc c => if c ∈ acc then acc else acc ++ [c]) (m.map Prod.fst) := by
  induction l with
  | nil => intro m; rfl
  | cons c cs ih =>
    intro m
    simp only [List.foldl_cons]
    rw [ih (bump m c), bump_keys]

theorem lookup0_foldl_bump (l : List String) (d : String) :
    ∀ m, lookup0 (l.foldl bump m) d = lookup0 m d + l.count d := by
  induction l with
  | nil => intro m; simp
  | cons c cs ih =>
    intro m
    simp only [List.foldl_cons]
    rw [ih (bump m c), lookup0_bump, List.count_cons]
    by_cases h : d = c
    · simp [h]
      omega
    · have h2 : ¬(c = d) := fun hh => h hh.symm
      simp [h, h2]

theorem nodup_foldl_bump (l : List String) :
    ∀ m, (m.map Prod.fst).Nodup → ((l.foldl bump m).map Prod.fst).Nodup := by
  induction l with
  | nil => intro m h; exact h
  | cons c cs ih => intro m h; exact ih _ (bump_nodup m c h)

theorem sum_foldl_bump (l : List String) :
    ∀ m, ((l.foldl bump m).map Prod.snd).sum = (m.map Prod.snd).sum + l.length := by
  induction l with
  | nil => intro m; simp
  | cons c cs ih =>
    intro m
    simp only [List.foldl_cons, List.length_cons]
    rw [ih (bump m c), bump_sum]
    omega

theorem catCounts_flat (store : List Pattern) :
    catCounts store = (allCats store).foldl bump [] := by
  unfold catCounts allCats
  suffices h : ∀ (ps : List Pattern) (m : List (String × Nat)),
      ps.foldl (fun m p => p.categories.foldl bump m) m =
        ((ps.map (fun p => p.categories)).flatten).foldl bump m by
    exact h store []
  intro ps
  induction ps with
  | nil => intro m; rfl
  | cons p rest ih =>
    intro m
    simp only [List.foldl_cons, List.map_cons, List.flatten_cons, List.foldl_append]
    exact ih _

theorem mem_eq_lookup0 :
    ∀ (m : List (String × Nat)), (m.map Prod.fst).Nodup →
      ∀ c n, (c, n) ∈ m → n = lookup0 m c := by
  intro m
  induction m with
  | nil => intro _ c n h; simp at h
  | cons kv rest ih =>
    intro hnd c n h
    obtain ⟨k, v⟩ := kv
    simp only [List.map_cons, List.nodup_cons] at hnd
    rcases List.mem_cons.mp h with h1 | h1
    · obtain ⟨rfl, rfl⟩ := Prod.mk.injEq .. ▸ h1
      simp [lookup0]
    · have hk : ¬(k = c) := by
        intro hkc
        subst hkc
        exact hnd.1 (List.mem_map_of_mem Prod.fst h1)
      simp only [lookup0, if_neg hk]
      exact ih hnd.2 c n h1

theorem assoc_eq_map_keys :
    ∀ (m : List (String × Nat)), (m.map Prod.fst).Nodup →
      m = (m.map Prod.fst).map (fun k => (k, lookup0 m k)) := by
  intro m
  induction m with
  | nil => intro _; rfl
  | cons kv rest ih =>
    intro hnd
    obtain ⟨k, v⟩ := kv
    simp only [List.map_cons, List.nodup_cons] at hnd
    simp only [List.map_cons]
    have h2 : (rest.map Prod.fst).map (fun k' => (k', lookup0 ((k, v) :: rest) k')) =
        (rest.map Prod.fst).map (fun k' => (k', lookup0 rest k')) :=
      List.map_congr_left (fun k' hk' => by
        have hne : ¬(k = k') := fun h => hnd.1 (h ▸ hk')
        simp [lookup0, hne])
    rw [h2, ← ih hnd.2]
    simp [lookup0]

theorem filter_map_keys (v : String → Nat) (n : Nat) :
    ∀ (L : List String),
      ((L.map (fun k => (k, v k))).filter (fun a => a.2 == n)).map Prod.fst =
        L.filter (fun k => v k == n) := by
  intro L
  induction L with
  | nil => rfl
  | cons k ks ih =>
    simp only [List.map_cons, List.filter_cons]
    by_cases h : v k = n
    · simp [h, ih]
    · simp [h, ih]

theorem mem_foldl_firstOccs (l : List String) :
    ∀ acc c, (c ∈ l.foldl (fun acc c => if c ∈ acc then acc else acc ++ [c]) acc) ↔
      (c ∈ acc ∨ c ∈ l) := by
  induction l with
  | nil => intro acc c; simp
  | cons d ds ih =>
    intro acc c
    simp only [List.foldl_cons]
    rw [ih]
    by_cases hd : d ∈ acc
    · simp only [hd, if_true, List.mem_cons]
      constructor
      · rintro (h | h)
        · exact Or.inl h
        · exact Or.inr (Or.inr h)
      · rintro (h | h | h)
        · exact Or.inl h
        · exact Or.inl (h ▸ hd)
        · exact Or.inr h
    · simp only [hd, if_false, List.mem_append, List.mem_singleton, List.mem_cons]
      tauto

theorem mem_firstOccs (l : List String) (c : String) : c ∈ firstOccs l ↔ c ∈ l := by
  unfold firstOccs
  rw [mem_foldl_firstOccs]
  simp

theorem sum_indicator (store : List Pattern) (c : String) :
    (store.map (fun p => if c ∈ p.categories then 1 else 0)).sum =
      (store.filter (fun p => decide (c ∈ p.categories))).length := by
  induction store with
  | nil => rfl
  | cons p rest ih =>
    simp only [List.map_cons, List.sum_cons, List.filter_cons]
    by_cases h : c ∈ p.categories
    · simp [h, ih]
      omega
    · simp [h, ih]

theorem count_allCats (store : List Pattern) (c : String)
    (hnd : ∀ p ∈ store, p.categories.Nodup) :
    (allCats store).count c = (store.filter (fun p => decide (c ∈ p.categories))).length := by
  unfold allCats
  rw [List.count_flatten, ← sum_indicator]
  simp only [List.map_map]
  refine congrArg List.sum (List.map_congr_left (fun p hp => ?_))
  simp only [Function.comp]
  rw [List.count_eq_of_nodup (hnd p hp)]

theorem lookup0_catCounts (store : List Pattern) (c : String) :
    lookup0 (catCounts store) c = (allCats store).count c := by
  rw [catCounts_flat]
  have h := lookup0_foldl_bump (allCats store) c []
  simpa [lookup0] using h

theorem keys_catCounts (store : List Pattern) :
    (catCounts store).map Prod.fst = firstOccs (allCats store) := by
  rw [catCounts_flat]
  have h := keys_foldl_bump (allCats store) []
  simpa [firstOccs] using h

theorem nodup_keys_catCounts (store : List Pattern) :
    ((catCounts store).map Prod.fst).Nodup := by
  rw [catCounts_flat]
  exact nodup_foldl_bump (allCats store) [] (by simp)

theorem sum_catCounts (store : List Pattern) :
    ((catCounts store).map Prod.snd).sum = (allCats store).length := by
  rw [catCounts_flat]
  have h := sum_foldl_bump (allCats store) []
  simpa using h

/-! ### Shape of the search output -/

theorem searchScored_filter_snd_sublist (store : List Pattern) (q : String)
    (pr : Nat × Pattern → Bool) :
    List.Sublist (((searchScored store q).filter pr).map Prod.snd) store := by
  induction store with
  | nil => simp [searchScored]
  | cons p rest ih =>
    simp only [searchScored, List.filterMap_cons] at ih ⊢
    by_cases hs : 0 < searchScore q p
    · simp only [if_pos hs, List.filter_cons]
      by_cases hpr : pr (searchScore q p, p) = true
      · simp only [hpr, if_true, List.map_cons]
        exact ih.cons₂ p
      · simp only [hpr, if_false]
        exact ih.cons p
    · simp only [if_neg hs]
      exact ih.cons p

theorem clampI_toNat_le (hi : Int) (limit : Int) (hhi : 0 ≤ hi) :
    (clampI 1 hi limit).toNat ≤ hi.toNat := by
  have h : clampI 1 hi limit ≤ hi := min_le_right _ _
  omega

theorem clampI_pos (hi : Int) (limit : Int) (hhi : 1 ≤ hi) :
    1 ≤ clampI 1 hi limit := by
  have h1 : (1 : Int) ≤ max 1 limit := le_max_left _ _
  have h2 : clampI 1 hi limit = min (max 1 limit) hi := rfl
  rw [h2]
  exact le_min h1 hhi

theorem search_patterns_length_le (store : List Pattern) (q : String) (l : Int) :
    (search_patterns store q l).length ≤ (clampI 1 30 l).toNat := by
  by_cases ht : queryTerms q = []
  · simp [search_patterns, ht]
  · simp only [search_patterns, if_neg ht, List.length_map]
    exact List.length_take_le _ _

/-! ### The claims -/

/-- Claim C7: each operation clamps its limit to an inclusive range before
use — [1, 30] for search, [1, 40] for byCategory, [1, 25] for mistakes —
in-range limits pass through unchanged, a limit of 0 behaves as 1 and a
limit of 1000 behaves as the respective upper bound. -/
theorem claimC7 (store : List Pattern) (q c : String) (oc : Option String) (l : Int) :
    (1 ≤ clampI 1 30 l ∧ clampI 1 30 l ≤ 30 ∧ (1 ≤ l → l ≤ 30 → clampI 1 30 l = l)) ∧
    (1 ≤ clampI 1 40 l ∧ clampI 1 40 l ≤ 40 ∧ (1 ≤ l → l ≤ 40 → clampI 1 40 l = l)) ∧
    (1 ≤ clampI 1 25 l ∧ clampI 1 25 l ≤ 25 ∧ (1 ≤ l → l ≤ 25 → clampI 1 25 l = l)) ∧
    search_patterns store q 0 = search_patterns store q 1 ∧
    search_patterns store q 1000 = search_patterns store q 30 ∧
    get_by_category store c 0 = get_by_category store c 1 ∧
    get_by_category store c 1000 = get_by_category store c 40 ∧
    get_mistakes store oc 0 = get_mistakes store oc 1 ∧
    get_mistakes store oc 1000 = get_mistakes store oc 25 := by
  refine ⟨⟨clampI_pos 30 l (by norm_num), min_le_right _ _, fun h1 h2 => ?_⟩,
    ⟨clampI_pos 40 l (by norm_num), min_le_right _ _, fun h1 h2 => ?_⟩,
    ⟨clampI_pos 25 l (by norm_num), min_le_right _ _, fun h1 h2 => ?_⟩,
    rfl, rfl, rfl, rfl, rfl, rfl⟩
  · unfold clampI
    rw [max_eq_right h1, min_eq_left h2]
  · unfold clampI
    rw [max_eq_right h1, min_eq_left h2]
  · unfold clampI
    rw [max_eq_right h1, min_eq_left h2]

/-- Witness for C7 at the in-range limit 7. -/
theorem claimC7_witness :
    clampI 1 30 7 = 7 ∧ clampI 1 40 7 = 7 ∧ clampI 1 25 7 = 7 :=
  ⟨(claimC7 [] "" "" none 7).1.2.2 (by norm_num) (by norm_num),
   (claimC7 [] "" "" none 7).2.1.2.2 (by norm_num) (by norm_num),
   (claimC7 [] "" "" none 7).2.2.1.2.2 (by norm_num) (by norm_num)⟩

/-- Claim C4 as stated is false on the code: a whitespace-only category is
truthy in Python, so `get_mistakes` does apply the category filter (with
the empty string as key, after trimming) instead of returning the
unfiltered base set — here the base set is one record, the filtered result
empty. -/
theorem claimC4_counterexample :
    get_mistakes [⟨"mistake", ["c"], [], "b"⟩] (some " ") 10 = [] ∧
    get_mistakes [⟨"mistake", ["c"], [], "b"⟩] none 10 = [⟨"mistake", ["c"], [], "b"⟩] :=
  ⟨by decide, by decide⟩

/-- Claim C4 amended: the category filter is applied iff the category
argument is present and non-empty BEFORE trimming; an absent or empty
category yields the unfiltered `type = "mistake"` base set in store order
(truncated to the clamped limit), while any non-empty category — a
whitespace-only one included — filters by exact membership of its trimmed
lower-cased form. -/
theorem claimC4 (store : List Pattern) (c : String) (l : Int) :
    get_mistakes store none l =
      (store.filter (fun p => decide (p.type = "mistake"))).take (clampI 1 25 l).toNat ∧
    get_mistakes store (some "") l =
      (store.filter (fun p => decide (p.type = "mistake"))).take (clampI 1 25 l).toNat ∧
    (c ≠ "" →
      get_mistakes store (some c) l =
        ((store.filter (fun p => decide (p.type = "mistake"))).filter
          (fun p => decide (pyStrip (pyLower c) ∈ p.categories))).take
            (clampI 1 25 l).toNat) := by
  refine ⟨rfl, by simp [get_mistakes], fun hc => by simp [get_mistakes, hc]⟩

/-- Witness for C4 at a concrete non-empty category. -/
theorem claimC4_witness :
    get_mistakes [⟨"mistake", ["c"], [], "b"⟩] (some "c") 10 =
      (([(⟨"mistake", ["c"], [], "b"⟩ : Pattern)].filter
          (fun p => decide (p.type = "mistake"))).filter
        (fun p => decide (pyStrip (pyLower "c") ∈ p.categories))).take
          (clampI 1 25 10).toNat :=
  (claimC4 [⟨"mistake", ["c"], [], "b"⟩] "c" 10).2.2 (by decide)

/-- Claim C3 as stated is false on the code: with eleven stored mistakes,
`mistakes(category="x")` (default limit 10) returns the eleventh record,
which the truncated `mistakes()` (default limit 10) does not contain, so
the category-filtered result is not a subset of `mistakes()`. -/
theorem claimC3_counterexample :
    (⟨"mistake", ["x"], [], "b"⟩ : Pattern) ∈
      get_mistakes
        (List.replicate 10 ⟨"mistake", ["a"], [], "b"⟩ ++ [⟨"mistake", ["x"], [], "b"⟩])
        (some "x") 10 ∧
    (⟨"mistake", ["x"], [], "b"⟩ : Pattern) ∉
      get_mistakes
        (List.replicate 10 ⟨"mistake", ["a"], [], "b"⟩ ++ [⟨"mistake", ["x"], [], "b"⟩])
        none 10 :=
  ⟨by decide, by decide⟩

/-- Claim C3 amended: every record returned by `mistakes(category=X)` for a
non-empty `X` is a store record of type `"mistake"` whose categories
contain the trimmed lower-cased `X` (so it belongs to the untruncated
mistakes base set and passes the byCategory membership test); membership in
the TRUNCATED `mistakes()` list can fail when earlier mistakes fill its
limit. -/
theorem claimC3 (store : List Pattern) (x : String) (l : Int) (r : Pattern)
    (hx : x ≠ "") (hr : r ∈ get_mistakes store (some x) l) :
    r ∈ store ∧ r.type = "mistake" ∧ pyStrip (pyLower x) ∈ r.categories := by
  simp only [get_mistakes, if_neg hx] at hr
  have h1 := List.mem_of_mem_take hr
  have h2 := List.mem_filter.mp h1
  have h3 := List.mem_filter.mp h2.1
  refine ⟨h3.1, ?_, ?_⟩
  · exact of_decide_eq_true h3.2
  · exact of_decide_eq_true h2.2

/-- Witness for C3 at a concrete store and category. -/
theorem claimC3_witness :
    (⟨"mistake", ["x"], [], "b"⟩ : Pattern) ∈ [(⟨"mistake", ["x"], [], "b"⟩ : Pattern)] ∧
    Pattern.type ⟨"mistake", ["x"], [], "b"⟩ = "mistake" ∧
    pyStrip (pyLower "x") ∈ Pattern.categories ⟨"mistake", ["x"], [], "b"⟩ :=
  claimC3 [⟨"mistake", ["x"], [], "b"⟩] "x" 10 ⟨"mistake", ["x"], [], "b"⟩
    (by decide) (by decide)

/-- Claim C1 as stated is false on the code: `search_patterns` sums term
matches over the whitespace-split token LIST, so with the query "x x y" the
record with content "x" scores 2 where the claimed distinct-term count is
1, and the two scorings rank a two-record store differently (the code puts
the double-matching record first; under distinct counting both records tie
and keep store order). -/
theorem claimC1_counterexample :
    searchScore "x x y" ⟨"practice", ["c"], [], "x"⟩ = 2 ∧
    claimScoreC1 "x x y" ⟨"practice", ["c"], [], "x"⟩ = 1 ∧
    search_patterns [⟨"practice", ["c"], [], "y"⟩, ⟨"practice", ["c"], [], "x"⟩]
        "x x y" 10 ≠
      claimSearchC1 [⟨"practice", ["c"], [], "y"⟩, ⟨"practice", ["c"], [], "x"⟩]
        "x x y" 10 :=
  ⟨by decide, by decide, by decide⟩

/-- Claim C1 amended: the search score equals the number of tokens of the
whitespace-split lower-cased query — counted WITH their multiplicity in
the token list, not as distinct terms — that occur as substrings of the
record's lower-cased haystack, plus a flat bonus of 3 when the full
lower-cased untokenized query occurs as a substring; records with score 0
are excluded (and a query with no tokens returns nothing). -/
theorem claimC1 (store : List Pattern) (q : String) (l : Int) :
    search_patterns store q l = specSearchC1Amended store q l :=
  search_patterns_eq_amended store q l

/-- Claim C5: the ranked search sequence has non-increasing scores, records
of any one score keep the store's relative order (their projection is a
sublist of the store), the returned list is the truncation of the ranked
list to the clamped limit, and its length is bounded by that limit. -/
theorem claimC5 (store : List Pattern) (q : String) (l : Int) :
    ((searchRanked store q).take (clampI 1 30 l).toNat).Pairwise
      (fun a b => b.1 ≤ a.1) ∧
    (∀ n, List.Sublist
      ((((searchRanked store q).take (clampI 1 30 l).toNat).filter
          (fun a => a.1 == n)).map Prod.snd)
      store) ∧
    (queryTerms q ≠ [] →
      search_patterns store q l =
        ((searchRanked store q).take (clampI 1 30 l).toNat).map Prod.snd) ∧
    (search_patterns store q l).length ≤ (clampI 1 30 l).toNat := by
  refine ⟨?_, ?_, ?_, ?_⟩
  · exact (sortByDesc_pairwise Prod.fst _).sublist (List.take_sublist _ _)
  · intro n
    have h1 : List.Sublist
        (((searchRanked store q).take (clampI 1 30 l).toNat).filter (fun a => a.1 == n))
        ((searchRanked store q).filter (fun a => a.1 == n)) :=
      ((List.take_prefix _ _).filter _).sublist
    have h2 : (searchRanked store q).filter (fun a => a.1 == n) =
        (searchScored store q).filter (fun a => a.1 == n) :=
      sortByDesc_filter Prod.fst _ n
    have h4 : List.Sublist
        (((searchRanked store q).filter (fun a => a.1 == n)).map Prod.snd) store := by
      rw [h2]
      exact searchScored_filter_snd_sublist store q (fun a => a.1 == n)
    exact (h1.map Prod.snd).trans h4
  · intro ht
    simp [search_patterns, if_neg ht]
  · exact search_patterns_length_le store q l

/-- Witness for C5 at a concrete store and query. -/
theorem claimC5_witness :
    search_patterns [⟨"practice", ["c"], [], "x"⟩] "x" 5 =
      ((searchRanked [⟨"practice", ["c"], [], "x"⟩] "x").take
        (clampI 1 30 5).toNat).map Prod.snd :=
  (claimC5 [⟨"practice", ["c"], [], "x"⟩] "x" 5).2.2.1 (by decide)

/-- Claim C9: each query operation returns only store records, with at most
their store multiplicities, and at most the CLAMPED limit of them — hence
at most 30, 40 and 25 respectively. -/
theorem claimC9 (store : List Pattern) (q c : String) (oc : Option String) (l : Int)
    (r : Pattern) :
    ((search_patterns store q l).count r ≤ store.count r ∧
      (search_patterns store q l).length ≤ (clampI 1 30 l).toNat ∧
      (search_patterns store q l).length ≤ 30) ∧
    ((get_by_category store c l).count r ≤ store.count r ∧
      (get_by_category store c l).length ≤ (clampI 1 40 l).toNat ∧
      (get_by_category store c l).length ≤ 40) ∧
    ((get_mistakes store oc l).count r ≤ store.count r ∧
      (get_mistakes store oc l).length ≤ (clampI 1 25 l).toNat ∧
      (get_mistakes store oc l).length ≤ 25) := by
  have hslen : (search_patterns store q l).length ≤ (clampI 1 30 l).toNat :=
    search_patterns_length_le store q l
  have hblen : (get_by_category store c l).length ≤ (clampI 1 40 l).toNat :=
    List.length_take_le _ _
  have hmlen : (get_mistakes store oc l).length ≤ (clampI 1 25 l).toNat := by
    unfold get_mistakes
    rcases oc with _ | c0
    · exact List.length_take_le _ _
    · by_cases hc : c0 = ""
      · simp only [hc, if_pos rfl]
        exact List.length_take_le _ _
      · simp only [if_neg hc]
        exact List.length_take_le _ _
  refine ⟨⟨?_, hslen, ?_⟩, ⟨?_, hblen, ?_⟩, ⟨?_, hmlen, ?_⟩⟩
  · by_cases ht : queryTerms q = []
    · simp [search_patterns, ht]
    · simp only [search_patterns, if_neg ht]
      have h1 : List.Sublist
          (((searchRanked store q).take (clampI 1 30 l).toNat).map Prod.snd)
          ((searchRanked store q).map Prod.snd) :=
        (List.take_sublist _ _).map Prod.snd
      have h2 : ((searchRanked store q).map Prod.snd).count r =
          ((searchScored store q).map Prod.snd).count r :=
        ((sortByDesc_perm Prod.fst _).map Prod.snd).count_eq r
      have h3 : List.Sublist ((searchScored store q).map Prod.snd) store := by
        have h := searchScored_filter_snd_sublist store q (fun _ => true)
        simpa using h
      calc (((searchRanked store q).take (clampI 1 30 l).toNat).map Prod.snd).count r
          ≤ ((searchRanked store q).map Prod.snd).count r := h1.count_le r
        _ = ((searchScored store q).map Prod.snd).count r := h2
        _ ≤ store.count r := h3.count_le r
  · have h30 : (clampI 1 30 l).toNat ≤ 30 := clampI_toNat_le 30 l (by norm_num)
    omega
  · exact (((List.take_sublist _ _).trans (List.filter_sublist store)).count_le r)
  · have h40 : (clampI 1 40 l).toNat ≤ 40 := clampI_toNat_le 40 l (by norm_num)
    omega
  · have hsub : List.Sublist (get_mistakes store oc l) store := by
      unfold get_mistakes
      rcases oc with _ | c0
      · exact (List.take_sublist _ _).trans (List.filter_sublist store)
      · by_cases hc : c0 = ""
        · simp only [hc, if_pos rfl]
          exact (List.take_sublist _ _).trans (List.filter_sublist store)
        · simp only [if_neg hc]
          exact (List.take_sublist _ _).trans
            ((List.filter_sublist _).trans (List.filter_sublist store))
    exact hsub.count_le r
  · have h25 : (clampI 1 25 l).toNat ≤ 25 := clampI_toNat_le 25 l (by norm_num)
    omega

/-- Claim C6 as stated is false on the code when a record repeats a label
inside its own `categories` sequence: the code counts occurrences, not
containing records, so the label "a" listed twice by a single record gets
count 2 while only one record contains it (and the count sum 2 exceeds the
single (record, category) membership pair). -/
theorem claimC6_counterexample :
    list_categories [⟨"practice", ["a", "a"], [], "b"⟩] = [("a", 2)] ∧
    ([(⟨"practice", ["a", "a"], [], "b"⟩ : Pattern)].filter
      (fun p => decide ("a" ∈ p.categories))).length = 1 :=
  ⟨by decide, by decide⟩

/-- Claim C6 amended: provided no record repeats a label inside its own
`categories` sequence, `categoryCounts()` lists exactly the labels
appearing on at least one record, each with the number of records
containing it (every count at least 1), in descending count order with
ties in first-encounter order over the store scan, and the counts sum to
the total number of (record, category) membership pairs. -/
theorem claimC6 (store : List Pattern)
    (hnd : ∀ p ∈ store, p.categories.Nodup) :
    (∀ c, c ∈ (list_categories store).map Prod.fst ↔ ∃ p ∈ store, c ∈ p.categories) ∧
    (∀ c n, (c, n) ∈ list_categories store →
      1 ≤ n ∧ n = (store.filter (fun p => decide (c ∈ p.categories))).length) ∧
    (list_categories store).Pairwise (fun a b => b.2 ≤ a.2) ∧
    (∀ n, ((list_categories store).filter (fun a => a.2 == n)).map Prod.fst =
      (firstOccs (allCats store)).filter
        (fun c => (store.filter (fun p => decide (c ∈ p.categories))).length == n)) ∧
    ((list_categories store).map Prod.snd).sum =
      (store.map (fun p => p.categories.dedup.length)).sum := by
  have hperm : List.Perm (list_categories store) (catCounts store) :=
    sortByDesc_perm Prod.snd _
  have hmemflat : ∀ c : String, c ∈ allCats store ↔ ∃ p ∈ store, c ∈ p.categories := by
    intro c
    unfold allCats
    rw [List.mem_flatten]
    constructor
    · rintro ⟨cl, hcl, hc⟩
      rcases List.mem_map.mp hcl with ⟨p, hp, rfl⟩
      exact ⟨p, hp, hc⟩
    · rintro ⟨p, hp, hc⟩
      exact ⟨p.categories, List.mem_map_of_mem _ hp, hc⟩
  refine ⟨?_, ?_, ?_, ?_, ?_⟩
  · intro c
    rw [(hperm.map Prod.fst).mem_iff, keys_catCounts, mem_firstOccs]
    exact hmemflat c
  · intro c n h
    have h1 : (c, n) ∈ catCounts store := hperm.mem_iff.mp h
    have h2 : n = lookup0 (catCounts store) c :=
      mem_eq_lookup0 _ (nodup_keys_catCounts store) c n h1
    have h3 : c ∈ (catCounts store).map Prod.fst := List.mem_map_of_mem Prod.fst h1
    rw [keys_catCounts, mem_firstOccs] at h3
    have h4 : 0 < (allCats store).count c := List.count_pos_iff.mpr h3
    rw [h2, lookup0_catCounts]
    exact ⟨h4, count_allCats store c hnd⟩
  · exact sortByDesc_pairwise Prod.snd _
  · intro n
    have e1 : (list_categories store).filter (fun a => a.2 == n) =
        (catCounts store).filter (fun a => a.2 == n) :=
      sortByDesc_filter Prod.snd _ n
    rw [e1]
    conv_lhs => rw [assoc_eq_map_keys _ (nodup_keys_catCounts store)]
    rw [filter_map_keys, keys_catCounts]
    refine List.filter_congr (fun k hk => ?_)
    rw [lookup0_catCounts, count_allCats store k hnd]
  · have e1 : ((list_categories store).map Prod.snd).sum =
        ((catCounts store).map Prod.snd).sum :=
      (hperm.map Prod.snd).sum_eq
    rw [e1, sum_catCounts]
    unfold allCats
    rw [List.length_flatten, List.map_map]
    refine congrArg List.sum (List.map_congr_left (fun p hp => ?_))
    simp only [Function.comp]
    rw [List.dedup_eq_self.mpr (hnd p hp)]

/-- Witness for C6 at a concrete duplicate-free store. -/
theorem claimC6_witness :
    ((list_categories [⟨"practice", ["a"], [], "b"⟩]).map Prod.snd).sum =
      ([(⟨"practice", ["a"], [], "b"⟩ : Pattern)].map
        (fun p => p.categories.dedup.length)).sum :=
  (claimC6 [⟨"practice", ["a"], [], "b"⟩] (by decide)).2.2.2.2

theorem toolsCall_msgId (store : List Pattern) (rid : Option JVal) (ps : CallParams) :
    (toolsCall store rid ps).msgId = rid := by
  unfold toolsCall
  dsimp only
  repeat' split
  all_goals rfl

/-- Claim C2 as stated is false on the code: only the fall-through
unknown-method path checks for a missing identifier; an id-less request to
a recognized method is answered with a null identifier — here both an
"initialize" notification and a failing "tools/call" notification get a
response. -/
theorem claimC2_counterexample :
    dispatch [] ⟨"initialize", none, ⟨"", ⟨none, none, none⟩⟩⟩ =
      [OutMsg.result none RVal.initInfo] ∧
    dispatch [] ⟨"tools/call", none, ⟨"nope", ⟨none, none, none⟩⟩⟩ =
      [OutMsg.error none (-32601) "Unknown tool: nope"] :=
  ⟨by decide, by decide⟩

/-- Claim C2 amended: a request without an identifier is dropped without
any response only when its method is unrecognized; the recognized methods
("initialize", "tools/list", "tools/call") are answered even without an
identifier, the response carrying a null identifier — in general every
emitted response echoes the request's identifier, and each request yields
at most one response (the parse-error path, which lives in the transport
loop, emits with a null identifier as before). -/
theorem claimC2 (store : List Pattern) (req : Request) :
    (req.id = none → req.method ≠ "initialize" → req.method ≠ "tools/list" →
      req.method ≠ "tools/call" → dispatch store req = []) ∧
    (req.method = "initialize" ∨ req.method = "tools/list" ∨ req.method = "tools/call" →
      ∃ m : OutMsg, dispatch store req = [m] ∧ m.msgId = req.id) ∧
    (∀ m ∈ dispatch store req, m.msgId = req.id) := by
  refine ⟨?_, ?_, ?_⟩
  · intro h0 h1 h2 h3
    simp [dispatch, h0, h1, h2, h3]
  · rintro (h | h | h)
    · refine ⟨OutMsg.result req.id RVal.initInfo, ?_, rfl⟩
      simp [dispatch, h]
    · refine ⟨OutMsg.result req.id RVal.toolList, ?_, rfl⟩
      have hni : req.method ≠ "initialize" := by rw [h]; decide
      simp [dispatch, h, hni]
    · refine ⟨toolsCall store req.id req.params, ?_, toolsCall_msgId store req.id req.params⟩
      have hni : req.method ≠ "initialize" := by rw [h]; decide
      have hnl : req.method ≠ "tools/list" := by rw [h]; decide
      simp [dispatch, h, hni, hnl]
  · intro m hm
    unfold dispatch at hm
    split_ifs at hm with h1 h2 h3 h4
    · simp only [List.mem_singleton] at hm
      subst hm; rfl
    · simp only [List.mem_singleton] at hm
      subst hm; rfl
    · simp only [List.mem_singleton] at hm
      subst hm
      exact toolsCall_msgId store req.id req.params
    · simp at hm
    · simp only [List.mem_singleton] at hm
      subst hm; rfl

/-- Witness for C2: an id-less request to an unrecognized method is
dropped, and a recognized method is answered. -/
theorem claimC2_witness :
    dispatch [] ⟨"bogus", none, ⟨"", ⟨none, none, none⟩⟩⟩ = [] ∧
    (∃ m : OutMsg, dispatch [] ⟨"initialize", none, ⟨"", ⟨none, none, none⟩⟩⟩ = [m] ∧
      m.msgId = none) :=
  ⟨(claimC2 [] ⟨"bogus", none, ⟨"", ⟨none, none, none⟩⟩⟩).1 rfl (by decide) (by decide)
      (by decide),
   (claimC2 [] ⟨"initialize", none, ⟨"", ⟨none, none, none⟩⟩⟩).2.1 (Or.inl rfl)⟩

/-- Claim C10: the dispatcher coerces `limit` with `int()` before calling
the query engine — an integer-convertible limit (digit strings included)
behaves exactly as its integer value for every tool, and a non-convertible
one makes the `tools/call` fail with code -32603 instead of being clamped
or replaced by the default, at each of the three `int()` sites:
get_mistakes unconditionally, search_patterns once its required `query` is
present (the missing-query error precedes the coercion), and
get_by_category once its required `category` is present. -/
theorem claimC10 (store : List Pattern) (rid : Option JVal) (ps : CallParams)
    (v : JVal) (n : Int) (e : String) :
    (pyIntOf v = .ok n → ps.arguments.limit = some v →
      toolsCall store rid ps =
        toolsCall store rid
          ⟨ps.name, ⟨ps.arguments.query, ps.arguments.category, some (.jint n)⟩⟩) ∧
    (pyIntOf v = .error e → ps.name = "get_mistakes" → ps.arguments.limit = some v →
      toolsCall store rid ps = .error rid (-32603) e) ∧
    (pyIntOf v = .error e → ps.name = "search_patterns" → ps.arguments.limit = some v →
      ∀ q : String, ps.arguments.query = some q → q ≠ "" →
        toolsCall store rid ps = .error rid (-32603) e) ∧
    (pyIntOf v = .error e → ps.name = "get_by_category" → ps.arguments.limit = some v →
      ∀ cq : String, ps.arguments.category = some cq → cq ≠ "" →
        toolsCall store rid ps = .error rid (-32603) e) ∧
    pyIntOf (.jstr "7") = .ok 7 := by
  obtain ⟨name, qv, cv, lv⟩ := ps
  refine ⟨?_, ?_, ?_, ?_, by rfl⟩
  · intro hv hlim
    simp only at hlim
    subst hlim
    simp only [toolsCall, Option.getD_some]
    rw [hv]
    simp [pyIntOf]
  · intro hv hname hlim
    simp only at hname hlim
    subst hname
    subst hlim
    simp [toolsCall, hv]
  · intro hv hname hlim q hq hqne
    simp only at hname hlim hq
    subst hname
    subst hlim
    subst hq
    simp [toolsCall, hv, hqne]
  · intro hv hname hlim cq hcq hcqne
    simp only at hname hlim hcq
    subst hname
    subst hlim
    subst hcq
    simp [toolsCall, hv, hcqne]

/-- Witness for C10: a digit-string limit behaves as its value, and a
non-numeric one fails the call with -32603 at each of the three `int()`
sites (get_mistakes, search_patterns, get_by_category). -/
theorem claimC10_witness :
    toolsCall [] none ⟨"get_mistakes", ⟨none, none, some (.jstr "7")⟩⟩ =
      toolsCall [] none ⟨"get_mistakes", ⟨none, none, some (.jint 7)⟩⟩ ∧
    toolsCall [] none ⟨"get_mistakes", ⟨none, none, some (.jstr "abc")⟩⟩ =
      .error none (-32603) "invalid literal for int() with base 10: 'abc'" ∧
    toolsCall [] none ⟨"search_patterns", ⟨some "q", none, some (.jstr "abc")⟩⟩ =
      .error none (-32603) "invalid literal for int() with base 10: 'abc'" ∧
    toolsCall [] none ⟨"get_by_category", ⟨none, some "c", some (.jstr "abc")⟩⟩ =
      .error none (-32603) "invalid literal for int() with base 10: 'abc'" :=
  ⟨(claimC10 [] none ⟨"get_mistakes", ⟨none, none, some (.jstr "7")⟩⟩
      (.jstr "7") 7 "").1 (by rfl) rfl,
   (claimC10 [] none ⟨"get_mistakes", ⟨none, none, some (.jstr "abc")⟩⟩
      (.jstr "abc") 0 "invalid literal for int() with base 10: 'abc'").2.1
      (by rfl) rfl rfl,
   (claimC10 [] none ⟨"search_patterns", ⟨some "q", none, some (.jstr "abc")⟩⟩
      (.jstr "abc") 0 "invalid literal for int() with base 10: 'abc'").2.2.1
      (by rfl) rfl rfl "q" rfl (by decide),
   (claimC10 [] none ⟨"get_by_category", ⟨none, some "c", some (.jstr "abc")⟩⟩
      (.jstr "abc") 0 "invalid literal for int() with base 10: 'abc'").2.2.2.1
      (by rfl) rfl rfl "c" rfl (by decide)⟩

/-- Claim C8 as stated is false on the code: a line holding valid JSON that
is not an object — "42" decodes to the number 42 — is not caught by the
parse-error handler; `dispatch` receives a non-dict, the attribute access
`req.get` raises an uncaught `AttributeError`, and the loop aborts with no
-32700 response and the following lines unread. -/
theorem claimC8_counterexample :
    runLoop (fun s => if s = "42" then some .nonObj else none) [] ["42", "oops"] =
      ([], true) := by
  decide

/-- Claim C8 amended: a line on which JSON decoding FAILS (json.loads
raises) produces exactly one error response with a null identifier and
code -32700, and the loop continues with the remaining lines; a line that
decodes to a non-object JSON value, however, aborts the loop through an
uncaught exception. -/
theorem claimC8 (jloads : String → Option DecodedJson) (store : List Pattern)
    (line : String) (rest : List String)
    (hne : ¬(pyStrip line = "")) (hfail : jloads (pyStrip line) = none) :
    runLoop jloads store (line :: rest) =
      (OutMsg.error none (-32700) "Parse error" :: (runLoop jloads store rest).1,
        (runLoop jloads store rest).2) := by
  conv_lhs => rw [runLoop]
  rw [if_neg hne, hfail]

/-- Witness for C8 at a concrete undecodable line. -/
theorem claimC8_witness :
    runLoop (fun _ => none) [] ["x"] =
      (OutMsg.error none (-32700) "Parse error" ::
        (runLoop (fun _ => none) [] ([] : List String)).1,
        (runLoop (fun _ => none) [] ([] : List String)).2) :=
  claimC8 (fun _ => none) [] "x" [] (by decide) rfl

end AFG
